import Mathlib

/-!
Shallow embedding of `minesweeper/director/base.py`: the `Cell` grid-geometry
model, the `BaseControl` action/history protocol, and the director registry.

Modelling conventions:
* A `Cell` snapshot carries its coordinates, its observed type code and an
  opaque identifier of the `Control` that produced it (Python compares
  controls by object identity; we compare the identifiers).
* The bound control's positional lookup `get_cell` is passed explicitly as a
  function `GetCell`; out-of-bounds lookups return `none` ("absent").
* Python's `set(...)` of cells becomes a `Finset Cell`; generator methods
  become `List`s.
* The external line rasterizer `int_trace` (from `minesweeper/raytrace.py`,
  out of scope) is passed explicitly as a function `IntTrace`.
-/

namespace Minesweeper

/-- A snapshot of one grid position: coordinates, observed type code
(0..8 numbers, 9 unrevealed, 10 flag) and the identity of the producing
control (`Cell.__init__` fields `_control`, `x`, `y`, `type`). -/
structure Cell where
  control : Nat
  x : Int
  y : Int
  type : Int
deriving DecidableEq

/-- The control's positional lookup `get_cell(x, y)`:
`none` models an out-of-bounds ("absent") result. -/
def GetCell : Type := Int → Int → Option Cell

/-- The derived linear index set in `Cell.__init__`:
`self.idx = self.x * self._control.get_board_size()[1] + self.y`,
where `get_board_size()[1]` is the board height. -/
def cellIdx (boardHeight x y : Int) : Int :=
  x * boardHeight + y

/-- `Cell.__eq__`: equal controls (object identity, modelled by the
identifier) and equal `x`, `y`, `type`.  (The `if not other` guard only
fires on `None`/falsy arguments, never on an actual `Cell`.) -/
def cellEq (a b : Cell) : Bool :=
  a.control == b.control && a.x == b.x && a.y == b.y && a.type == b.type

/-- `Cell.get_neighbor_deltas()`: the eight 8-directional adjacency deltas,
in source order. -/
def neighborDeltas : List (Int × Int) :=
  [(-1, -1), (0, -1), (1, -1), (1, 0), (1, 1), (0, 1), (-1, 1), (-1, 0)]

/-- `Cell.get_cardinal_neighbor_deltas()`: the four cardinal deltas,
in source order. -/
def cardinalNeighborDeltas : List (Int × Int) :=
  [(0, -1), (1, 0), (0, 1), (-1, 0)]

/-- `Cell.get_neighbor_at(d_x, d_y)`: resolve `(x + d_x, y + d_y)` through
the cell's control. -/
def get_neighbor_at (getCell : GetCell) (c : Cell) (dx dy : Int) : Option Cell :=
  getCell (c.x + dx) (c.y + dy)

/-- A cell-capability filter set, one Boolean predicate per named filter
argument. -/
def Filters : Type := List (Cell → Bool)

/-- Modelled from the spec: `apply_method_filter` lives in
`minesweeper/util.py`, which is not among the sources; per the spec it keeps
exactly the cells on which every named zero-argument predicate returns the
requested Boolean, i.e. a conjunctive filter. -/
def apply_method_filter (cells : List Cell) (filters : Filters) : List Cell :=
  cells.filter (fun c => filters.all (fun f => f c))

/-- `Cell._get_neighbours(vectors, **filters)`: resolve every delta through
`get_neighbor_at`, drop absent results, apply the filters, collect a set. -/
def getNeighbours (getCell : GetCell) (c : Cell) (vectors : List (Int × Int))
    (filters : Filters) : Finset Cell :=
  (apply_method_filter
    (vectors.filterMap (fun d => get_neighbor_at getCell c d.1 d.2))
    filters).toFinset

/-- `Cell.get_neighbors(**filters)`. -/
def get_neighbors (getCell : GetCell) (c : Cell) (filters : Filters) : Finset Cell :=
  getNeighbours getCell c neighborDeltas filters

/-- `Cell.get_cardinal_neighbors(**filters)`. -/
def get_cardinal_neighbors (getCell : GetCell) (c : Cell) (filters : Filters) : Finset Cell :=
  getNeighbours getCell c cardinalNeighborDeltas filters

/-- `Cell.get_neighbor_across_from(cell)`: offset `(self.x - cell.x,
self.y - cell.y)` checked against the 8-directional deltas, then stepped
from `cell`; falling off the end of the Python function returns `None`. -/
def get_neighbor_across_from (getCell : GetCell) (self cell : Cell) : Option Cell :=
  let dx := self.x - cell.x
  let dy := self.y - cell.y
  if (dx, dy) ∈ neighborDeltas then get_neighbor_at getCell cell dx dy else none

/-- `Cell.get_cardinal_neighbor_across_from(cell)`: offset `(cell.x - self.x,
cell.y - self.y)` checked against the cardinal deltas, then stepped from
`cell`. -/
def get_cardinal_neighbor_across_from (getCell : GetCell) (self cell : Cell) : Option Cell :=
  let dx := cell.x - self.x
  let dy := cell.y - self.y
  if (dx, dy) ∈ cardinalNeighborDeltas then get_neighbor_at getCell cell dx dy else none

/-- `Cell.get_perpendicular_neighbors_from(cell)`, translated verbatim:
early empty return when both axes differ; `d_x /= d_x` and `d_y /= d_y`
(exact division of a nonzero integer by itself, value 1); the `d_y` branch
overwrites the `d_x` branch's deltas and places the normalized `d_y` in the
x slot, exactly as the source does. -/
def get_perpendicular_neighbors_from (getCell : GetCell) (self cell : Cell) : Finset Cell :=
  if self.x ≠ cell.x ∧ self.y ≠ cell.y then ∅
  else
    let dx := self.x - cell.x
    let dy := self.y - cell.y
    let deltas0 : List (Int × Int) := []
    let deltas1 := if dx ≠ 0 then [(dx / dx, 1), (dx / dx, -1)] else deltas0
    let deltas2 := if dy ≠ 0 then [(dy / dy, 1), (dy / dy, -1)] else deltas1
    getNeighbours getCell self deltas2 []

/-- The external rasterizer `int_trace(x1, y1, x2, y2)` as a parameter:
a list of integer grid points. -/
def IntTrace : Type := Int → Int → Int → Int → List (Int × Int)

/-- `Cell.trace_to(cell, **filters)`: yield the control lookup of every
point produced by `int_trace`; the filter arguments appear in the signature
but are never used, exactly as in the source. -/
def trace_to (itrace : IntTrace) (getCell : GetCell) (self cell : Cell)
    (filters : Filters) : List (Option Cell) :=
  (itrace self.x self.y cell.x cell.y).map (fun p => getCell p.1 p.2)

/-- `BaseControl`: its only state is the action history, a list of
`(action_kind, (x, y))` entries. -/
structure BaseControl where
  history : List (String × (Int × Int))
deriving DecidableEq

/-- `BaseControl.click(x, y)`. -/
def BaseControl.click (c : BaseControl) (x y : Int) : BaseControl :=
  ⟨c.history ++ [("click", (x, y))]⟩

/-- `BaseControl.right_click(x, y)`. -/
def BaseControl.right_click (c : BaseControl) (x y : Int) : BaseControl :=
  ⟨c.history ++ [("right_click", (x, y))]⟩

/-- `BaseControl.middle_click(x, y)`. -/
def BaseControl.middle_click (c : BaseControl) (x y : Int) : BaseControl :=
  ⟨c.history ++ [("middle_click", (x, y))]⟩

/-- `BaseControl.mark(x, y, mark_num)`: appends `(f'mark{mark_num}', (x, y))`. -/
def BaseControl.mark (c : BaseControl) (x y markNum : Int) : BaseControl :=
  ⟨c.history ++ [("mark" ++ toString markNum, (x, y))]⟩

/-- `BaseControl.get_history()`. -/
def BaseControl.get_history (c : BaseControl) : List (String × (Int × Int)) :=
  c.history

/-- One action invocation issued through a control. -/
inductive ControlAction where
  | click (x y : Int)
  | rightClick (x y : Int)
  | middleClick (x y : Int)
  | markAction (x y markNum : Int)

/-- Dispatch one action to the corresponding `BaseControl` method. -/
def applyAction (c : BaseControl) : ControlAction → BaseControl
  | ControlAction.click x y => c.click x y
  | ControlAction.rightClick x y => c.right_click x y
  | ControlAction.middleClick x y => c.middle_click x y
  | ControlAction.markAction x y n => c.mark x y n

/-- Issue a sequence of actions in order. -/
def runActions (c : BaseControl) : List ControlAction → BaseControl
  | [] => c
  | a :: rest => runActions (applyAction c a) rest

/-- The history entry each action kind is specified to append. -/
def historyEntry : ControlAction → String × (Int × Int)
  | ControlAction.click x y => ("click", (x, y))
  | ControlAction.rightClick x y => ("right_click", (x, y))
  | ControlAction.middleClick x y => ("middle_click", (x, y))
  | ControlAction.markAction x y n => ("mark" ++ toString n, (x, y))

/-- A director class, identified by its `__name__` and a distinguishing
identity (Python classes are distinct objects). -/
structure DirClass where
  name : String
  id : Nat
deriving DecidableEq

/-- The module-level `_DIRECTORS` dict, as a slug-to-class lookup. -/
def Registry : Type := String → Option DirClass

/-- `_DIRECTORS[slug] = cls`. -/
def registryInsert (r : Registry) (slug : String) (cls : DirClass) : Registry :=
  fun s => if s = slug then some cls else r s

/-- `get_directors()`. -/
def get_directors (r : Registry) : Registry :=
  r

/-- The possible return values of `register_director`: the class branch
falls off the end (Python `None`); the string branch returns the inner
`register` closure, which inserts its argument and returns it. -/
inductive RDRet where
  | noneRet : RDRet
  | decoratorRet : (DirClass → Registry → Registry × DirClass) → RDRet

/-- `register_director(cls_or_slug)` in state-passing form: with a string it
returns the decorator without touching the registry; with a class it
registers the class under `cls.__name__` and returns `None`. -/
def register_director (r : Registry) : String ⊕ DirClass → Registry × RDRet
  | Sum.inl slug =>
      (r, RDRet.decoratorRet (fun cls reg => (registryInsert reg slug cls, cls)))
  | Sum.inr cls =>
      (registryInsert r cls.name cls, RDRet.noneRet)

/-- One registration event, in either calling form:
`register_director(SomeClass)` or `register_director("slug")(SomeClass)`. -/
inductive RegCall where
  | direct (cls : DirClass)
  | viaSlug (slug : String) (cls : DirClass)

/-- The slug a registration call ends up using. -/
def RegCall.slug : RegCall → String
  | RegCall.direct cls => cls.name
  | RegCall.viaSlug s _ => s

/-- The class a registration call registers. -/
def RegCall.cls : RegCall → DirClass
  | RegCall.direct c => c
  | RegCall.viaSlug _ c => c

/-- Perform a registration call through `register_director`, applying the
returned decorator in the string form. -/
def performReg (r : Registry) : RegCall → Registry
  | RegCall.direct cls => (register_director r (Sum.inr cls)).1
  | RegCall.viaSlug slug cls =>
      match register_director r (Sum.inl slug) with
      | (r1, RDRet.decoratorRet d) => (d cls r1).1
      | (r1, RDRet.noneRet) => r1

/-- A control lookup answering a cell at every coordinate (an unbounded
board of unrevealed cells), used for concrete evaluations. -/
def gcAll : GetCell := fun x y => some ⟨0, x, y, 9⟩

/-- A control lookup for a 3×3 board of unrevealed cells. -/
def gc3 : GetCell := fun x y =>
  if 0 ≤ x ∧ x < 3 ∧ 0 ≤ y ∧ y < 3 then some ⟨0, x, y, 9⟩ else none

/- ### Helper lemmas -/

/-- Membership in an unfiltered `_get_neighbours` result comes from some
delta in the vector list whose lookup succeeded. -/
theorem mem_getNeighbours {getCell : GetCell} {c : Cell} {vecs : List (Int × Int)}
    {n : Cell} (h : n ∈ getNeighbours getCell c vecs []) :
    ∃ d ∈ vecs, getCell (c.x + d.1) (c.y + d.2) = some n := by
  simp only [getNeighbours, apply_method_filter, List.mem_toFinset, List.mem_filter,
    List.all_nil, List.mem_filterMap, get_neighbor_at, and_true] at h
  obtain ⟨d, hd, hsome⟩ := h
  exact ⟨d, hd, hsome⟩

/-- An `_get_neighbours` result never has more cells than deltas. -/
theorem getNeighbours_card_le (getCell : GetCell) (c : Cell)
    (vecs : List (Int × Int)) (filters : Filters) :
    (getNeighbours getCell c vecs filters).card ≤ vecs.length := by
  unfold getNeighbours apply_method_filter
  refine le_trans (List.toFinset_card_le _) ?_
  refine le_trans (List.length_filter_le _ _) ?_
  exact List.length_filterMap_le _ _

/-- Each `BaseControl` action method appends exactly its history entry. -/
theorem applyAction_get_history (c : BaseControl) (a : ControlAction) :
    (applyAction c a).get_history = c.get_history ++ [historyEntry a] := by
  cases a <;> rfl

/-- Both registration forms reduce to a dict store under the effective slug. -/
theorem performReg_eq_insert (r : Registry) (c : RegCall) :
    performReg r c = registryInsert r c.slug c.cls := by
  cases c <;> rfl

/- ### Claims -/

/-- C1: for every pair of cells, `get_neighbor_across_from` returns the
control lookup of `self`'s own coordinates when the offset from `cell` to
`self` is one of the eight 8-directional deltas, and `none` otherwise. -/
theorem get_neighbor_across_from_spec (getCell : GetCell) (self cell : Cell) :
    get_neighbor_across_from getCell self cell =
      if (self.x - cell.x, self.y - cell.y) ∈ neighborDeltas
      then getCell self.x self.y
      else none := by
  simp only [get_neighbor_across_from, get_neighbor_at]
  by_cases h : (self.x - cell.x, self.y - cell.y) ∈ neighborDeltas
  · rw [if_pos h, if_pos h]
    congr 1 <;> ring
  · rw [if_neg h, if_neg h]

/-- C2: for every pair of cells, `get_cardinal_neighbor_across_from` returns
the control lookup of the point one step beyond `cell` on the far side from
`self`, namely `(2*cell.x - self.x, 2*cell.y - self.y)`, when the offset from
`self` to `cell` is one of the four cardinal deltas, and `none` otherwise. -/
theorem get_cardinal_neighbor_across_from_spec (getCell : GetCell) (self cell : Cell) :
    get_cardinal_neighbor_across_from getCell self cell =
      if (cell.x - self.x, cell.y - self.y) ∈ cardinalNeighborDeltas
      then getCell (2 * cell.x - self.x) (2 * cell.y - self.y)
      else none := by
  simp only [get_cardinal_neighbor_across_from, get_neighbor_at]
  by_cases h : (cell.x - self.x, cell.y - self.y) ∈ cardinalNeighborDeltas
  · rw [if_pos h, if_pos h]
    congr 1 <;> ring
  · rw [if_neg h, if_neg h]

/-- C3: evaluation of `get_perpendicular_neighbors_from` on an unbounded
board at inputs where the claim predicts otherwise.  With `self = (5,5)` and
`cell = (5,7)` (shared column, unit step toward `self` being `-1`) the claim
predicts the cells at `(6,4)` and `(4,4)`; the code normalizes `d_y` with
`d_y /= d_y` (always `1`, the sign is lost) and places it in the x slot of
the deltas, yielding `(6,6)` and `(6,4)`.  With `self = (5,5)` and
`cell = (7,5)` (shared row, unit step toward `self` being `-1`) the claim
predicts `(4,6)` and `(4,4)`; the code again yields `(6,6)` and `(6,4)`. -/
theorem get_perpendicular_neighbors_from_code_eval :
    get_perpendicular_neighbors_from gcAll ⟨0, 5, 5, 9⟩ ⟨0, 5, 7, 9⟩ =
      {⟨0, 6, 6, 9⟩, ⟨0, 6, 4, 9⟩} ∧
    get_perpendicular_neighbors_from gcAll ⟨0, 5, 5, 9⟩ ⟨0, 7, 5, 9⟩ =
      {⟨0, 6, 6, 9⟩, ⟨0, 6, 4, 9⟩} := by
  constructor <;> decide

/-- C4: each base-control action appends exactly one `(action_kind, (x, y))`
entry, a sequence of actions appends its entries in invocation order, and in
particular `click(2,3)`, `right_click(4,5)`, `mark(1,1,2)` on a fresh base
control produce exactly the three expected history entries. -/
theorem history_appends_in_order :
    (∀ (c : BaseControl) (a : ControlAction),
        (applyAction c a).get_history = c.get_history ++ [historyEntry a]) ∧
    (∀ (c : BaseControl) (acts : List ControlAction),
        (runActions c acts).get_history = c.get_history ++ acts.map historyEntry) ∧
    (runActions ⟨[]⟩ [ControlAction.click 2 3, ControlAction.rightClick 4 5,
        ControlAction.markAction 1 1 2]).get_history =
      [("click", (2, 3)), ("right_click", (4, 5)), ("mark2", (1, 1))] := by
  have hrun : ∀ (acts : List ControlAction) (c : BaseControl),
      (runActions c acts).get_history = c.get_history ++ acts.map historyEntry := by
    intro acts
    induction acts with
    | nil => intro c; simp [runActions, BaseControl.get_history]
    | cons a rest ih =>
        intro c
        rw [runActions, ih, applyAction_get_history]
        simp
  exact ⟨applyAction_get_history, fun c acts => hrun acts c, by rw [hrun]; rfl⟩

/-- C5: `trace_to` yields exactly the same sequence whatever filters are
passed (they are dead), and every trace point's lookup is yielded in place —
the result is the pointwise control lookup of the rasterized points, `none`
entries included, with one output per trace point. -/
theorem trace_to_ignores_filters (itrace : IntTrace) (getCell : GetCell)
    (self cell : Cell) (filters : Filters) :
    trace_to itrace getCell self cell filters = trace_to itrace getCell self cell [] ∧
    trace_to itrace getCell self cell filters =
      (itrace self.x self.y cell.x cell.y).map (fun p => getCell p.1 p.2) ∧
    (trace_to itrace getCell self cell filters).length =
      (itrace self.x self.y cell.x cell.y).length := by
  refine ⟨rfl, rfl, ?_⟩
  simp [trace_to]

/-- C6: assuming the control's lookup only answers in-bounds cells carrying
their own coordinates, `get_neighbors` (no filters) returns at most 8 cells,
all in bounds and at Chebyshev distance exactly 1 from the source, and
`get_cardinal_neighbors` (no filters) returns at most 4 cells, all at
Manhattan distance exactly 1. -/
theorem neighbor_queries_bounded (getCell : GetCell) (W H : Int) (c : Cell)
    (hgc : ∀ x y n, getCell x y = some n →
      n.x = x ∧ n.y = y ∧ 0 ≤ x ∧ x < W ∧ 0 ≤ y ∧ y < H) :
    (get_neighbors getCell c []).card ≤ 8 ∧
    (∀ n ∈ get_neighbors getCell c [],
      (0 ≤ n.x ∧ n.x < W ∧ 0 ≤ n.y ∧ n.y < H) ∧
        max (n.x - c.x).natAbs (n.y - c.y).natAbs = 1) ∧
    (get_cardinal_neighbors getCell c []).card ≤ 4 ∧
    (∀ n ∈ get_cardinal_neighbors getCell c [],
      (n.x - c.x).natAbs + (n.y - c.y).natAbs = 1) := by
  refine ⟨getNeighbours_card_le getCell c neighborDeltas [], ?_,
    getNeighbours_card_le getCell c cardinalNeighborDeltas [], ?_⟩
  · intro n hn
    obtain ⟨d, hd, hsome⟩ := mem_getNeighbours hn
    obtain ⟨hx, hy, hxl, hxu, hyl, hyu⟩ := hgc _ _ _ hsome
    refine ⟨⟨by omega, by omega, by omega, by omega⟩, ?_⟩
    have hdx : n.x - c.x = d.1 := by omega
    have hdy : n.y - c.y = d.2 := by omega
    rw [hdx, hdy]
    simp only [neighborDeltas] at hd
    fin_cases hd <;> decide
  · intro n hn
    obtain ⟨d, hd, hsome⟩ := mem_getNeighbours hn
    obtain ⟨hx, hy, hxl, hxu, hyl, hyu⟩ := hgc _ _ _ hsome
    have hdx : n.x - c.x = d.1 := by omega
    have hdy : n.y - c.y = d.2 := by omega
    rw [hdx, hdy]
    simp only [cardinalNeighborDeltas] at hd
    fin_cases hd <;> decide

/-- Witness for C6: the lookup of the 3×3 board satisfies the coordinate
hypothesis, and the conclusions hold at the cell `(1,1)`. -/
theorem neighbor_queries_bounded_witness :
    (get_neighbors gc3 ⟨0, 1, 1, 9⟩ []).card ≤ 8 ∧
    (∀ n ∈ get_neighbors gc3 ⟨0, 1, 1, 9⟩ [],
      (0 ≤ n.x ∧ n.x < 3 ∧ 0 ≤ n.y ∧ n.y < 3) ∧
        max (n.x - (⟨0, 1, 1, 9⟩ : Cell).x).natAbs
          (n.y - (⟨0, 1, 1, 9⟩ : Cell).y).natAbs = 1) ∧
    (get_cardinal_neighbors gc3 ⟨0, 1, 1, 9⟩ []).card ≤ 4 ∧
    (∀ n ∈ get_cardinal_neighbors gc3 ⟨0, 1, 1, 9⟩ [],
      (n.x - (⟨0, 1, 1, 9⟩ : Cell).x).natAbs +
        (n.y - (⟨0, 1, 1, 9⟩ : Cell).y).natAbs = 1) := by
  refine neighbor_queries_bounded gc3 3 3 ⟨0, 1, 1, 9⟩ ?_
  intro x y n h
  simp only [gc3] at h
  split at h
  · cases h
    rename_i hcond
    exact ⟨rfl, rfl, hcond.1, hcond.2.1, hcond.2.2.1, hcond.2.2.2⟩
  · exact Option.noConfusion h

/-- C7: the derived linear index `idx = x * H + y` is injective over the
in-bounds coordinate pairs of a W×H board. -/
theorem cellIdx_injective (W H x1 y1 x2 y2 : Int)
    (hx1 : 0 ≤ x1) (hx1W : x1 < W) (hy1 : 0 ≤ y1) (hy1H : y1 < H)
    (hx2 : 0 ≤ x2) (hx2W : x2 < W) (hy2 : 0 ≤ y2) (hy2H : y2 < H)
    (heq : cellIdx H x1 y1 = cellIdx H x2 y2) :
    x1 = x2 ∧ y1 = y2 := by
  have hH : 0 < H := lt_of_le_of_lt hy1 hy1H
  unfold cellIdx at heq
  have e1 : (x1 * H + y1) % H = y1 := by
    rw [add_comm, mul_comm, Int.add_mul_emod_self_left]
    exact Int.emod_eq_of_lt hy1 hy1H
  have e2 : (x2 * H + y2) % H = y2 := by
    rw [add_comm, mul_comm, Int.add_mul_emod_self_left]
    exact Int.emod_eq_of_lt hy2 hy2H
  have hy : y1 = y2 := by rw [← e1, ← e2, heq]
  have hx : x1 * H = x2 * H := by linarith
  exact ⟨mul_right_cancel₀ (ne_of_gt hH) hx, hy⟩

/-- Witness for C7: on a 3×4 board the bounds hold at `(2,1)` and the
injectivity conclusion follows. -/
theorem cellIdx_injective_witness :
    cellIdx 4 2 1 = cellIdx 4 2 1 ∧ ((2 : Int) = 2 ∧ (1 : Int) = 1) :=
  ⟨rfl, cellIdx_injective 3 4 2 1 2 1 (by decide) (by decide) (by decide)
    (by decide) (by decide) (by decide) (by decide) (by decide) rfl⟩

/-- C8: two cells are equal exactly when they reference the same control and
agree on `x`, `y` and `type`; in particular a snapshot whose type differs
from a fresh cell at the same coordinates compares unequal. -/
theorem cellEq_iff (a b : Cell) :
    (cellEq a b = true ↔
      (a.control = b.control ∧ a.x = b.x ∧ a.y = b.y ∧ a.type = b.type)) ∧
    (a.type ≠ b.type → cellEq a b = false) := by
  have hiff : cellEq a b = true ↔
      (a.control = b.control ∧ a.x = b.x ∧ a.y = b.y ∧ a.type = b.type) := by
    simp [cellEq, and_assoc]
  refine ⟨hiff, fun h => ?_⟩
  cases hb : cellEq a b
  · rfl
  · exact absurd (hiff.mp hb).2.2.2 h

/-- Witness for C8: a stale snapshot of `(5,5)` with type 9 compares unequal
to the fresh cell at `(5,5)` with type 1 from the same control. -/
theorem cellEq_iff_witness :
    ((9 : Int) ≠ 1) ∧ cellEq ⟨0, 5, 5, 9⟩ ⟨0, 5, 5, 1⟩ = false :=
  ⟨by decide, (cellEq_iff ⟨0, 5, 5, 9⟩ ⟨0, 5, 5, 1⟩).2 (by decide)⟩

/-- C9: registering two distinct classes under the same effective slug, by
either calling form, leaves `get_directors()` mapping that slug to the
second class only. -/
theorem registry_last_write_wins (r : Registry) (c1 c2 : RegCall)
    (hslug : c1.slug = c2.slug) (hcls : c1.cls ≠ c2.cls) :
    get_directors (performReg (performReg r c1) c2) c1.slug = some c2.cls ∧
    get_directors (performReg (performReg r c1) c2) c1.slug ≠ some c1.cls := by
  rw [performReg_eq_insert, performReg_eq_insert, hslug]
  constructor
  · simp [get_directors, registryInsert]
  · simp only [get_directors, registryInsert, if_pos rfl]
    intro h
    exact hcls (Option.some.inj h).symm

/-- Witness for C9: registering class `Foo` directly and then class `Bar`
through the decorator form under slug `"Foo"` leaves `"Foo"` mapped to
`Bar`. -/
theorem registry_last_write_wins_witness :
    (RegCall.slug (RegCall.direct ⟨"Foo", 1⟩) =
      RegCall.slug (RegCall.viaSlug "Foo" ⟨"Bar", 2⟩)) ∧
    ((⟨"Foo", 1⟩ : DirClass) ≠ ⟨"Bar", 2⟩) ∧
    get_directors
      (performReg (performReg (fun _ => none) (RegCall.direct ⟨"Foo", 1⟩))
        (RegCall.viaSlug "Foo" ⟨"Bar", 2⟩))
      (RegCall.slug (RegCall.direct ⟨"Foo", 1⟩)) = some ⟨"Bar", 2⟩ :=
  ⟨rfl, by decide,
    (registry_last_write_wins (fun _ => none) (RegCall.direct ⟨"Foo", 1⟩)
      (RegCall.viaSlug "Foo" ⟨"Bar", 2⟩) rfl (by decide)).1⟩

/-- C10: calling `register_director` directly with a class registers it
under the class name and returns `None`; calling it with a string leaves the
registry untouched and returns a decorator which registers its argument
under the given slug and returns it. -/
theorem register_director_return_behavior (r : Registry) (cls : DirClass)
    (slug : String) :
    ((register_director r (Sum.inr cls)).2 = RDRet.noneRet ∧
      get_directors (register_director r (Sum.inr cls)).1 cls.name = some cls) ∧
    ∃ d, (register_director r (Sum.inl slug)).2 = RDRet.decoratorRet d ∧
      (register_director r (Sum.inl slug)).1 = r ∧
      ∀ (cls2 : DirClass) (r2 : Registry),
        (d cls2 r2).2 = cls2 ∧ get_directors (d cls2 r2).1 slug = some cls2 := by
  refine ⟨⟨rfl, ?_⟩, ?_⟩
  · simp [register_director, get_directors, registryInsert]
  · refine ⟨_, rfl, rfl, fun cls2 r2 => ⟨rfl, ?_⟩⟩
    simp [register_director, get_directors, registryInsert]

end Minesweeper
